import Mathlib

/-!
Shallow embedding of the randomness statistical-analysis engine of the
QuantumCoinToss repository (src/quantum_stats.py), together with proofs of
the specification claims about it.

Modelling conventions:
* Python lists of outcomes become `List ℤ` (an outcome is a small integer;
  using `ℤ` lets us speak about out-of-alphabet values such as 2).
* Exact rational arithmetic (`ℚ`) models the float arithmetic on counts,
  probabilities and the chi-squared statistic; `ℝ` models the transcendental
  parts (log2, square roots).
* `scipy.stats.chi2`'s survival function (which produces the p-value inside
  `scipy.stats.chisquare`) is an external library routine; it is modelled as
  an explicit parameter `sf : ℕ → ℚ → ℚ` (degrees of freedom, statistic) so
  every theorem holds for the real function in particular.
* IEEE NaN (produced by `np.corrcoef` on constant data, 0/0) is modelled by
  `Option`: `none` is NaN, and every float comparison against NaN is false.
-/

namespace QuantumStats

/-- Error result of `analyze_coin_tosses`: on an empty input the Python code
returns the dictionary `{"error": "No results provided"}` (quantum_stats.py
line 16) instead of a report; the spec names this failure `EmptyInputError`.
The embedding models the error-dictionary return as `Except.error`. -/
inductive AnalysisError
  | emptyInput
deriving Repr, DecidableEq

/-- The `"runs"` sub-dictionary of the analysis report (lines 72-76). -/
structure RunStats where
  total_runs : ℕ
  max_run : ℕ
  avg_run : ℚ
deriving Repr, DecidableEq

/-- The `"chi_squared"` sub-dictionary of the analysis report (lines 81-85). -/
structure ChiSquared where
  statistic : ℚ
  p_value : ℚ
  is_random : Bool
deriving Repr, DecidableEq

/-- The rational-valued fields of the report dictionary built at lines 66-87
of quantum_stats.py.  The transcendental fields (`entropy`, `autocorrelation`)
are computed by `entropyValue` / `entropyRatioToMax` / `autocorrelation`
below from the same inputs, exactly as the corresponding source lines do. -/
structure Analysis where
  total_tosses : ℕ
  zeros : ℕ
  ones : ℕ
  p0 : ℚ
  p1 : ℚ
  bias : ℚ
  runs : RunStats
  chi_squared : ChiSquared
deriving Repr, DecidableEq

/-- The run-length scan of lines 33-39: walking the tail of the list with the
previous element `prev` and the length `cur` of the run currently open;
a run closes when the current element differs from the previous one, and the
last run is appended when the list ends (line 42). -/
def runsFrom : List ℤ → ℤ → ℕ → List ℕ
  | [], _, cur => [cur]
  | x :: xs, prev, cur =>
    if x = prev then runsFrom xs x (cur + 1)
    else cur :: runsFrom xs x 1

/-- The full run-length profile `runs` of lines 31-42: `current_run` starts
at 1 and the scan starts at index 1.  The Python loop body is unreachable for
an empty list (the function has already returned), so the `[]` case is
arbitrary. -/
def computeRuns : List ℤ → List ℕ
  | [] => []
  | x :: xs => runsFrom xs x 1

/-- The Pearson statistic computed by `scipy.stats.chisquare`:
`sum((observed - expected)**2 / expected)` over the paired cells. -/
def pearsonStat (observed expected : List ℚ) : ℚ :=
  ((observed.zip expected).map (fun oe => (oe.1 - oe.2) ^ 2 / oe.2)).sum

/-- Model of `scipy.stats.chisquare(observed, expected)` (line 57): returns
the Pearson statistic and its p-value, the chi-squared survival function `sf`
evaluated at `number of cells - 1` degrees of freedom. -/
def chisquare (sf : ℕ → ℚ → ℚ) (observed expected : List ℚ) : ℚ × ℚ :=
  let stat := pearsonStat observed expected
  (stat, sf (observed.length - 1) stat)

/-- The report built for a non-empty input by `analyze_coin_tosses`
(quantum_stats.py lines 18-87), field by field:
counts by `list.count` (lines 20-21), probabilities `count / total`
(lines 24-25), `bias = abs(p1 - 0.5)` (line 28), run statistics from the
run-length profile (lines 72-76, with `np.mean` as sum/length), and the
chi-squared test against expected counts `[total/2, total/2]` (lines 55-57)
with `is_random = p_value > 0.05` (line 84). -/
def reportOf (sf : ℕ → ℚ → ℚ) (results : List ℤ) : Analysis :=
  let total := results.length
  let zeros := results.count 0
  let ones := results.count 1
  let p0 : ℚ := (zeros : ℚ) / (total : ℚ)
  let p1 : ℚ := (ones : ℚ) / (total : ℚ)
  let runs := computeRuns results
  let chi := chisquare sf [(zeros : ℚ), (ones : ℚ)] [(total : ℚ) / 2, (total : ℚ) / 2]
  { total_tosses := total
    zeros := zeros
    ones := ones
    p0 := p0
    p1 := p1
    bias := |p1 - 1/2|
    runs :=
      { total_runs := runs.length
        max_run := if runs = [] then 0 else runs.foldr max 0
        avg_run := if runs = [] then 0 else ((runs.map (fun n => (n : ℚ))).sum) / (runs.length : ℚ) }
    chi_squared :=
      { statistic := chi.1
        p_value := chi.2
        is_random := decide ((1 : ℚ) / 20 < chi.2) } }

/-- `analyze_coin_tosses(results)` (lines 5-89): the empty-input check of
lines 15-16 returns the error dictionary, every other input produces the
report. -/
def analyze_coin_tosses (sf : ℕ → ℚ → ℚ) (results : List ℤ) :
    Except AnalysisError Analysis :=
  if results = [] then .error .emptyInput else .ok (reportOf sf results)

/-- A concrete stand-in survival function, used to instantiate theorems that
hold for every `sf`. -/
def sfZero : ℕ → ℚ → ℚ := fun _ _ => 0

/-- The Shannon entropy computed at lines 45-48 of quantum_stats.py from the
report's probabilities: `-p0*log2(p0) - p1*log2(p1)` when both probabilities
are positive, and the explicit fallback `0` otherwise. -/
noncomputable def entropyValue (p0 p1 : ℝ) : ℝ :=
  if 0 < p0 ∧ 0 < p1 then -p0 * Real.logb 2 p0 - p1 * Real.logb 2 p1 else 0

/-- The `ratio_to_max` field of line 51: the entropy divided by the maximum
binary entropy `1.0` bit (`log2(2)`). -/
noncomputable def entropyRatioToMax (p0 p1 : ℝ) : ℝ := entropyValue p0 p1 / 1

/-- The entropy as the spec phrases it: the sum `-Σ p_i log2(p_i)` taken over
the two symbols, where a symbol with zero probability contributes `0`.
This definition follows the spec's words; `entropyValue` follows the code. -/
noncomputable def entropySpecSum (p0 p1 : ℝ) : ℝ :=
  (if 0 < p0 then -(p0 * Real.logb 2 p0) else 0)
    + (if 0 < p1 then -(p1 * Real.logb 2 p1) else 0)

/-- Arithmetic mean of a rational list, `np.mean`. -/
def listMean (xs : List ℚ) : ℚ := xs.sum / (xs.length : ℚ)

/-- Sum of squared deviations from the mean; `np.corrcoef`'s denominator is
the square root of the product of the two lists' such sums (the common
normalisation factors cancel in the correlation coefficient). -/
def ssq (xs : List ℚ) : ℚ := (xs.map (fun x => (x - listMean xs) ^ 2)).sum

/-- Sum of products of deviations from the means, `np.corrcoef`'s numerator
up to the same cancelled normalisation. -/
def crossSum (xs ys : List ℚ) : ℚ :=
  ((xs.zip ys).map (fun p => (p.1 - listMean xs) * (p.2 - listMean ys))).sum

/-- `np.corrcoef(x, y)[0, 1]` (line 61): the Pearson correlation coefficient
of the two lists.  When either list has zero squared deviation, the float
computation divides 0 by 0 and yields IEEE NaN, modelled as `none`. -/
noncomputable def corrcoef (xs ys : List ℚ) : Option ℝ :=
  if ssq xs = 0 ∨ ssq ys = 0 then none
  else some ((crossSum xs ys : ℝ) / (Real.sqrt (ssq xs) * Real.sqrt (ssq ys)))

/-- `results[:-1]` of the autocorrelation pairing, as rationals. -/
def pairsA (results : List ℤ) : List ℚ := List.map (fun z : ℤ => (z : ℚ)) results.dropLast

/-- `results[1:]` of the autocorrelation pairing, as rationals. -/
def pairsB (results : List ℤ) : List ℚ := List.map (fun z : ℤ => (z : ℚ)) (results.drop 1)

/-- The lag-1 autocorrelation of lines 59-63: the correlation of the sequence
with its shift by one when it has more than one element, and the explicit
fallback `0` (a number, `some 0`) otherwise. -/
noncomputable def autocorrelation (results : List ℤ) : Option ℝ :=
  if 1 < results.length then corrcoef (pairsA results) (pairsB results)
  else some 0

/-- The three interpretation lines printable by `print_analysis`
(lines 111-117). -/
inductive Interpretation
  | statisticallyRandom
  | deviationFromRandomness
  | serialCorrelation
deriving Repr, DecidableEq

open Classical in
/-- The interpretation branch taken by `print_analysis` (lines 111-117) as a
function of the report's `is_random` flag and its autocorrelation.  A `none`
autocorrelation is IEEE NaN: both `abs(nan) < 0.1` and `abs(nan) >= 0.1`
evaluate to false in Python, so the match arms for `none` are `False`.
`none` as the result means that no interpretation line is printed. -/
noncomputable def interpretationOf (is_random : Bool) (ac : Option ℝ) :
    Option Interpretation :=
  if is_random = true ∧ (match ac with | some a => |a| < 1/10 | none => False) then
    some .statisticallyRandom
  else if ¬ (is_random = true) then some .deviationFromRandomness
  else if (match ac with | some a => 1/10 ≤ |a| | none => False) then
    some .serialCorrelation
  else none

/-- Number of adjacent unequal pairs in `prev :: xs`: each one closes a run
during the scan. -/
def countChanges : ℤ → List ℤ → ℕ
  | _, [] => 0
  | prev, x :: xs => (if x = prev then 0 else 1) + countChanges x xs

theorem runsFrom_sum (xs : List ℤ) : ∀ prev cur,
    (runsFrom xs prev cur).sum = cur + xs.length := by
  induction xs with
  | nil => intro prev cur; simp [runsFrom]
  | cons x xs ih =>
    intro prev cur
    by_cases h : x = prev <;> simp [runsFrom, h, ih] <;> omega

theorem runsFrom_length (xs : List ℤ) : ∀ prev cur,
    (runsFrom xs prev cur).length = 1 + countChanges prev xs := by
  induction xs with
  | nil => intro prev cur; simp [runsFrom, countChanges]
  | cons x xs ih =>
    intro prev cur
    by_cases h : x = prev
    · simp [runsFrom, countChanges, h, ih]
    · simp [runsFrom, countChanges, h, ih]
      omega

theorem countChanges_le (xs : List ℤ) : ∀ prev, countChanges prev xs ≤ xs.length := by
  induction xs with
  | nil => intro prev; simp [countChanges]
  | cons x xs ih =>
    intro prev
    have hx := ih x
    by_cases h : x = prev
    · rw [h] at hx
      simp [countChanges, h]
      omega
    · simp [countChanges, h]
      omega

theorem countChanges_eq_iff (xs : List ℤ) : ∀ prev,
    countChanges prev xs = xs.length ↔ List.Chain (· ≠ ·) prev xs := by
  induction xs with
  | nil => intro prev; simp [countChanges]
  | cons x xs ih =>
    intro prev
    rw [List.chain_cons]
    by_cases h : x = prev
    · have hle := countChanges_le xs x
      subst h
      simp [countChanges]
      omega
    · simp only [countChanges, if_neg h, List.length_cons]
      constructor
      · intro he
        have hc : countChanges x xs = xs.length := by omega
        exact ⟨Ne.symm h, (ih x).1 hc⟩
      · rintro ⟨-, hc⟩
        have := (ih x).2 hc
        omega

theorem count01_le (xs : List ℤ) : xs.count 0 + xs.count 1 ≤ xs.length := by
  induction xs with
  | nil => simp
  | cons x xs ih =>
    rcases eq_or_ne x 0 with h0 | h0 <;> rcases eq_or_ne x 1 with h1 | h1 <;>
      simp [List.count_cons, h0, h1] <;> omega

theorem count01_eq (xs : List ℤ) (hb : ∀ z ∈ xs, z = 0 ∨ z = 1) :
    xs.count 0 + xs.count 1 = xs.length := by
  induction xs with
  | nil => simp
  | cons x xs ih =>
    have hx := hb x (List.mem_cons_self x xs)
    have ih := ih fun z hz => hb z (List.mem_cons_of_mem x hz)
    rcases hx with h | h <;> subst h <;> simp [List.count_cons] <;> omega

theorem count01_lt (xs : List ℤ) (x : ℤ) (hx : x ∈ xs) (h0 : x ≠ 0) (h1 : x ≠ 1) :
    xs.count 0 + xs.count 1 < xs.length := by
  induction xs with
  | nil => cases hx
  | cons y ys ih =>
    rcases List.mem_cons.1 hx with h | h
    · subst h
      have := count01_le ys
      simp [List.count_cons, h0, h1]
      omega
    · have := ih h
      rcases eq_or_ne y 0 with hy0 | hy0 <;> rcases eq_or_ne y 1 with hy1 | hy1 <;>
        simp [List.count_cons, hy0, hy1] <;> omega

theorem ssq_replicate (m : ℕ) (q : ℚ) : ssq (List.replicate m q) = 0 := by
  rcases Nat.eq_zero_or_pos m with hm | hm
  · subst hm; simp [ssq]
  · have hmean : listMean (List.replicate m q) = q := by
      have : (m : ℚ) ≠ 0 := Nat.cast_ne_zero.2 hm.ne'
      simp [listMean, List.sum_replicate, nsmul_eq_mul]
      field_simp
    simp [ssq, hmean, List.map_replicate, List.sum_replicate]

theorem computeRuns_sum (x : ℤ) (l : List ℤ) :
    (computeRuns (x :: l)).sum = (x :: l).length := by
  have := runsFrom_sum l x 1
  simp [computeRuns, this]
  omega

theorem reportOf_total (sf : ℕ → ℚ → ℚ) (xs : List ℤ) :
    (reportOf sf xs).total_tosses = xs.length := rfl

theorem reportOf_zeros (sf : ℕ → ℚ → ℚ) (xs : List ℤ) :
    (reportOf sf xs).zeros = xs.count 0 := rfl

theorem reportOf_ones (sf : ℕ → ℚ → ℚ) (xs : List ℤ) :
    (reportOf sf xs).ones = xs.count 1 := rfl

theorem reportOf_p0 (sf : ℕ → ℚ → ℚ) (xs : List ℤ) :
    (reportOf sf xs).p0 = (xs.count 0 : ℚ) / (xs.length : ℚ) := rfl

theorem reportOf_p1 (sf : ℕ → ℚ → ℚ) (xs : List ℤ) :
    (reportOf sf xs).p1 = (xs.count 1 : ℚ) / (xs.length : ℚ) := rfl

theorem reportOf_bias (sf : ℕ → ℚ → ℚ) (xs : List ℤ) :
    (reportOf sf xs).bias = |(xs.count 1 : ℚ) / (xs.length : ℚ) - 1/2| := rfl

theorem reportOf_total_runs (sf : ℕ → ℚ → ℚ) (xs : List ℤ) :
    (reportOf sf xs).runs.total_runs = (computeRuns xs).length := rfl

theorem reportOf_max_run (sf : ℕ → ℚ → ℚ) (xs : List ℤ) :
    (reportOf sf xs).runs.max_run =
      if computeRuns xs = [] then 0 else (computeRuns xs).foldr max 0 := rfl

theorem reportOf_avg_run (sf : ℕ → ℚ → ℚ) (xs : List ℤ) :
    (reportOf sf xs).runs.avg_run =
      if computeRuns xs = [] then 0
      else (((computeRuns xs).map (fun n => (n : ℚ))).sum) / ((computeRuns xs).length : ℚ) := rfl

theorem reportOf_statistic (sf : ℕ → ℚ → ℚ) (xs : List ℤ) :
    (reportOf sf xs).chi_squared.statistic =
      pearsonStat [(xs.count 0 : ℚ), (xs.count 1 : ℚ)]
        [(xs.length : ℚ) / 2, (xs.length : ℚ) / 2] := rfl

theorem reportOf_p_value (sf : ℕ → ℚ → ℚ) (xs : List ℤ) :
    (reportOf sf xs).chi_squared.p_value =
      sf 1 (reportOf sf xs).chi_squared.statistic := rfl

theorem reportOf_is_random (sf : ℕ → ℚ → ℚ) (xs : List ℤ) :
    (reportOf sf xs).chi_squared.is_random =
      decide ((1 : ℚ) / 20 < (reportOf sf xs).chi_squared.p_value) := rfl

/-- C1: For every zero-length input sequence, `analyze_coin_tosses` fails with
the empty-input error, surfaced to the caller as the result of the call, and
no report (partial or otherwise) is returned: the result is exactly
`Except.error AnalysisError.emptyInput`, never `Except.ok`. -/
theorem c1_empty_input_fails (sf : ℕ → ℚ → ℚ) :
    analyze_coin_tosses sf [] = Except.error AnalysisError.emptyInput := rfl

/-- C2 counterexample: `analyze_coin_tosses` does not fail on the binary-mode
input `[0, 1, 2]` containing the out-of-alphabet value 2 — it returns a
report, and the 2 is silently absent from the counts (`zeros + ones = 2`
while `total_tosses = 3`). -/
theorem c2_counterexample :
    analyze_coin_tosses sfZero [0, 1, 2] = Except.ok (reportOf sfZero [0, 1, 2]) ∧
    (reportOf sfZero [0, 1, 2]).total_tosses = 3 ∧
    (reportOf sfZero [0, 1, 2]).zeros = 1 ∧
    (reportOf sfZero [0, 1, 2]).ones = 1 ∧
    (reportOf sfZero [0, 1, 2]).zeros + (reportOf sfZero [0, 1, 2]).ones ≠
      (reportOf sfZero [0, 1, 2]).total_tosses := by
  refine ⟨rfl, ?_, ?_, ?_, ?_⟩ <;> decide

/-- C2 (amended): the analyzer performs no alphabet validation at all — for
every sequence containing a value outside {0, 1}, the call still succeeds
with a report, and the offending value is silently ignored by the counts, so
`zeros + ones` falls strictly short of `total_tosses`. -/
theorem c2_invalid_symbol_silently_ignored (sf : ℕ → ℚ → ℚ) (xs : List ℤ) (x : ℤ)
    (hx : x ∈ xs) (h0 : x ≠ 0) (h1 : x ≠ 1) :
    analyze_coin_tosses sf xs = Except.ok (reportOf sf xs) ∧
    (reportOf sf xs).zeros + (reportOf sf xs).ones < (reportOf sf xs).total_tosses := by
  have hne : xs ≠ [] := by rintro rfl; cases hx
  refine ⟨by simp [analyze_coin_tosses, hne], ?_⟩
  exact count01_lt xs x hx h0 h1

/-- Witness for C2 (amended) at the concrete input `[0, 1, 2]` with the
out-of-alphabet element 2. -/
theorem c2_invalid_symbol_silently_ignored_witness :
    ((2 : ℤ) ∈ ([0, 1, 2] : List ℤ)) ∧ (2 : ℤ) ≠ 0 ∧ (2 : ℤ) ≠ 1 ∧
    (analyze_coin_tosses sfZero [0, 1, 2] = Except.ok (reportOf sfZero [0, 1, 2]) ∧
      (reportOf sfZero [0, 1, 2]).zeros + (reportOf sfZero [0, 1, 2]).ones <
        (reportOf sfZero [0, 1, 2]).total_tosses) :=
  ⟨by decide, by decide, by decide,
    c2_invalid_symbol_silently_ignored sfZero [0, 1, 2] 2 (by decide) (by decide) (by decide)⟩

/-- C4: for every non-empty sequence, the run-length profile sums to the
sequence length, has at most as many runs as elements, and has exactly as
many runs as elements precisely when no two adjacent elements are equal. -/
theorem c4_runs_profile_invariants (xs : List ℤ) (h : xs ≠ []) :
    (computeRuns xs).sum = xs.length ∧
    (computeRuns xs).length ≤ xs.length ∧
    ((computeRuns xs).length = xs.length ↔ List.Chain' (· ≠ ·) xs) := by
  match xs, h with
  | x :: l, _ =>
    refine ⟨computeRuns_sum x l, ?_, ?_⟩
    · have h1 := runsFrom_length l x 1
      have h2 := countChanges_le l x
      simp only [computeRuns, h1, List.length_cons]
      omega
    · have h1 := runsFrom_length l x 1
      have h3 := countChanges_eq_iff l x
      show (runsFrom l x 1).length = (x :: l).length ↔ List.Chain (· ≠ ·) x l
      rw [h1, List.length_cons, ← h3]
      omega

/-- Witness for C4 at the concrete input `[0, 0, 1]`. -/
theorem c4_runs_profile_invariants_witness :
    (([0, 0, 1] : List ℤ) ≠ []) ∧
    ((computeRuns [0, 0, 1]).sum = ([0, 0, 1] : List ℤ).length ∧
      (computeRuns [0, 0, 1]).length ≤ ([0, 0, 1] : List ℤ).length ∧
      ((computeRuns [0, 0, 1]).length = ([0, 0, 1] : List ℤ).length ↔
        List.Chain' (· ≠ ·) ([0, 0, 1] : List ℤ))) :=
  ⟨by decide, c4_runs_profile_invariants [0, 0, 1] (by decide)⟩

/-- C10: Scenario A — analysis of `[0,0,0,1,1,0,0,0,0,1]` reports zeros = 7,
ones = 3, p1 = 0.3, bias = 0.2, run-length profile [3, 2, 4, 1], run count 4,
max run 4 and mean run length 2.5. -/
theorem c10_scenario_a (sf : ℕ → ℚ → ℚ) :
    ∃ r : Analysis, analyze_coin_tosses sf [0, 0, 0, 1, 1, 0, 0, 0, 0, 1] = Except.ok r ∧
      r.zeros = 7 ∧ r.ones = 3 ∧ r.p1 = 3/10 ∧ r.bias = 1/5 ∧
      computeRuns [0, 0, 0, 1, 1, 0, 0, 0, 0, 1] = [3, 2, 4, 1] ∧
      r.runs.total_runs = 4 ∧ r.runs.max_run = 4 ∧ r.runs.avg_run = 5/2 := by
  have hc1 : ([0, 0, 0, 1, 1, 0, 0, 0, 0, 1] : List ℤ).count 1 = 3 := by decide
  have hr : computeRuns [0, 0, 0, 1, 1, 0, 0, 0, 0, 1] = [3, 2, 4, 1] := by decide
  have hL : ([0, 0, 0, 1, 1, 0, 0, 0, 0, 1] : List ℤ).length = 10 := by decide
  refine ⟨reportOf sf [0, 0, 0, 1, 1, 0, 0, 0, 0, 1], rfl, ?_, ?_, ?_, ?_, hr, ?_, ?_, ?_⟩
  · simp only [reportOf_zeros]; decide
  · simp only [reportOf_ones]; decide
  · rw [reportOf_p1, hc1, hL]; norm_num
  · rw [reportOf_bias, hc1, hL, abs_of_nonpos (by norm_num)]; norm_num
  · simp only [reportOf_total_runs, hr]; decide
  · rw [reportOf_max_run, hr]; decide
  · rw [reportOf_avg_run, hr, if_neg (by decide)]; norm_num

theorem autocorr_short (xs : List ℤ) (h : xs.length < 2) :
    autocorrelation xs = some 0 := by
  simp only [autocorrelation]
  rw [if_neg (by omega)]

theorem pairsA_replicate (n : ℕ) (c : ℤ) :
    pairsA (List.replicate n c) = List.replicate (n - 1) (c : ℚ) := by
  simp only [pairsA, List.dropLast_replicate]
  exact List.map_replicate

theorem pairsB_replicate (n : ℕ) (c : ℤ) :
    pairsB (List.replicate n c) = List.replicate (n - 1) (c : ℚ) := by
  simp only [pairsB, List.drop_replicate]
  exact List.map_replicate

/-- C5: for every non-empty sequence over {0, 1}, the report's counts sum to
the sequence length and its probabilities sum to 1 (exactly, in rational
arithmetic). -/
theorem c5_counts_and_probabilities (sf : ℕ → ℚ → ℚ) (xs : List ℤ)
    (h : xs ≠ []) (hb : ∀ z ∈ xs, z = 0 ∨ z = 1) :
    ∃ r : Analysis, analyze_coin_tosses sf xs = Except.ok r ∧
      r.zeros + r.ones = xs.length ∧ r.p0 + r.p1 = 1 := by
  refine ⟨reportOf sf xs, by simp [analyze_coin_tosses, h], ?_, ?_⟩
  · rw [reportOf_zeros, reportOf_ones]
    exact count01_eq xs hb
  · rw [reportOf_p0, reportOf_p1]
    have hlen : (xs.length : ℚ) ≠ 0 :=
      Nat.cast_ne_zero.2 (List.length_pos.2 h).ne'
    rw [div_add_div_same, ← Nat.cast_add, count01_eq xs hb, div_self hlen]

/-- Witness for C5 at the concrete input `[0, 1]`. -/
theorem c5_counts_and_probabilities_witness :
    (([0, 1] : List ℤ) ≠ []) ∧ (∀ z ∈ ([0, 1] : List ℤ), z = 0 ∨ z = 1) ∧
    ∃ r : Analysis, analyze_coin_tosses sfZero [0, 1] = Except.ok r ∧
      r.zeros + r.ones = ([0, 1] : List ℤ).length ∧ r.p0 + r.p1 = 1 :=
  ⟨by decide, by decide, c5_counts_and_probabilities sfZero [0, 1] (by decide) (by decide)⟩

/-- C3: on a constant sequence of length at least 2 the two overlapping pair
lists are constant, so their squared-deviation sums are 0 and the correlation
computation divides zero by the zero standard deviation: the stored
coefficient is NaN (`none`), not a number.  The explicit zero fallback of
lines 62-63 applies only to sequences with fewer than 2 elements. -/
theorem c3_constant_sequence_autocorr_nan (c : ℤ) (n : ℕ) (hn : 2 ≤ n) :
    ssq (pairsA (List.replicate n c)) = 0 ∧
    ssq (pairsB (List.replicate n c)) = 0 ∧
    autocorrelation (List.replicate n c) = none ∧
    ∀ xs : List ℤ, xs.length < 2 → autocorrelation xs = some 0 := by
  have hA : ssq (pairsA (List.replicate n c)) = 0 := by
    rw [pairsA_replicate]; exact ssq_replicate _ _
  have hB : ssq (pairsB (List.replicate n c)) = 0 := by
    rw [pairsB_replicate]; exact ssq_replicate _ _
  refine ⟨hA, hB, ?_, autocorr_short⟩
  have hlen : 1 < (List.replicate n c).length := by
    simp only [List.length_replicate]; omega
  rw [autocorrelation, if_pos hlen, corrcoef, if_pos (Or.inl hA)]

/-- Witness for C3 at the constant sequence `[7, 7]`. -/
theorem c3_constant_sequence_autocorr_nan_witness :
    2 ≤ 2 ∧
    (ssq (pairsA (List.replicate 2 (7 : ℤ))) = 0 ∧
      ssq (pairsB (List.replicate 2 (7 : ℤ))) = 0 ∧
      autocorrelation (List.replicate 2 (7 : ℤ)) = none ∧
      ∀ xs : List ℤ, xs.length < 2 → autocorrelation xs = some 0) :=
  ⟨by decide, c3_constant_sequence_autocorr_nan 7 2 (by decide)⟩

/-- C9: a single-element sequence reports run count 1, max run 1, mean run
length 1, and its autocorrelation is `some 0` — the explicit fallback, a
number, not NaN and not an error; more generally every sequence with fewer
than two elements reports autocorrelation `some 0`. -/
theorem c9_single_element_report (sf : ℕ → ℚ → ℚ) (x : ℤ) (xs : List ℤ)
    (hxs : xs.length < 2) :
    analyze_coin_tosses sf [x] = Except.ok (reportOf sf [x]) ∧
    (reportOf sf [x]).runs.total_runs = 1 ∧
    (reportOf sf [x]).runs.max_run = 1 ∧
    (reportOf sf [x]).runs.avg_run = 1 ∧
    autocorrelation [x] = some 0 ∧
    autocorrelation xs = some 0 := by
  have hone : computeRuns [x] = [1] := rfl
  refine ⟨by simp [analyze_coin_tosses], ?_, ?_, ?_, ?_, autocorr_short xs hxs⟩
  · rw [reportOf_total_runs, hone]; decide
  · rw [reportOf_max_run, hone, if_neg (by decide)]; decide
  · rw [reportOf_avg_run, hone, if_neg (by decide)]; norm_num
  · exact autocorr_short [x] (by simp)

/-- Witness for C9 at the single element 5 and the empty tail sequence. -/
theorem c9_single_element_report_witness :
    (([] : List ℤ).length < 2) ∧
    (analyze_coin_tosses sfZero [5] = Except.ok (reportOf sfZero [5]) ∧
      (reportOf sfZero [5]).runs.total_runs = 1 ∧
      (reportOf sfZero [5]).runs.max_run = 1 ∧
      (reportOf sfZero [5]).runs.avg_run = 1 ∧
      autocorrelation [5] = some 0 ∧
      autocorrelation [] = some 0) :=
  ⟨by decide, c9_single_element_report sfZero 5 [] (by decide)⟩

/-- C7: for every non-empty sequence, the chi-squared statistic of the report
is the Pearson statistic with expected count total/2 per symbol, the p-value
is the chi-squared survival function at alphabet_size - 1 = 2 - 1 degrees of
freedom applied to that statistic, and the is_random flag is true exactly
when the p-value exceeds 0.05. -/
theorem c7_chi_squared (sf : ℕ → ℚ → ℚ) (xs : List ℤ) (h : xs ≠ []) :
    ∃ r : Analysis, analyze_coin_tosses sf xs = Except.ok r ∧
      r.chi_squared.statistic =
        ((r.zeros : ℚ) - (xs.length : ℚ) / 2) ^ 2 / ((xs.length : ℚ) / 2)
          + ((r.ones : ℚ) - (xs.length : ℚ) / 2) ^ 2 / ((xs.length : ℚ) / 2) ∧
      r.chi_squared.p_value = sf (2 - 1) r.chi_squared.statistic ∧
      (r.chi_squared.is_random = true ↔ 1/20 < r.chi_squared.p_value) := by
  refine ⟨reportOf sf xs, by simp [analyze_coin_tosses, h], ?_, ?_, ?_⟩
  · rw [reportOf_statistic, reportOf_zeros, reportOf_ones]
    simp [pearsonStat]
  · exact reportOf_p_value sf xs
  · rw [reportOf_is_random]
    simp

/-- Witness for C7 at the concrete input `[0, 1]`. -/
theorem c7_chi_squared_witness :
    (([0, 1] : List ℤ) ≠ []) ∧
    ∃ r : Analysis, analyze_coin_tosses sfZero [0, 1] = Except.ok r ∧
      r.chi_squared.statistic =
        ((r.zeros : ℚ) - (([0, 1] : List ℤ).length : ℚ) / 2) ^ 2 /
            ((([0, 1] : List ℤ).length : ℚ) / 2)
          + ((r.ones : ℚ) - (([0, 1] : List ℤ).length : ℚ) / 2) ^ 2 /
            ((([0, 1] : List ℤ).length : ℚ) / 2) ∧
      r.chi_squared.p_value = sfZero (2 - 1) r.chi_squared.statistic ∧
      (r.chi_squared.is_random = true ↔ 1/20 < r.chi_squared.p_value) :=
  ⟨by decide, c7_chi_squared sfZero [0, 1] (by decide)⟩

/-- Model of scipy's `chi2.sf` at the one point the C8 counterexample needs:
`chi2.sf(2.0, df=1) = 0.15729920...`, which exceeds the 0.05 threshold. -/
def sfPoint157 : ℕ → ℚ → ℚ := fun _ _ => 1573 / 10000

/-- C8 counterexample: the report of the two-element sequence `[0, 0]` has a
"random" chi-squared verdict (statistic 2, p-value 0.157 > 0.05) together
with a NaN autocorrelation (`np.corrcoef` of the one-element pair lists), and
on such a report `print_analysis` prints none of the three interpretations:
the three-way decision table is not exhaustive over reachable reports. -/
theorem c8_counterexample :
    (reportOf sfPoint157 [0, 0]).chi_squared.is_random = true ∧
    autocorrelation [0, 0] = none ∧
    interpretationOf true none = none := by
  refine ⟨?_, ?_, ?_⟩
  · rw [reportOf_is_random, reportOf_p_value]
    show decide ((1 : ℚ) / 20 < 1573 / 10000) = true
    rw [decide_eq_true_iff]
    norm_num
  · have hA : ssq (pairsA [0, 0]) = 0 := by
      have hp : pairsA [0, 0] = [0] := by simp [pairsA]
      rw [hp]
      norm_num [ssq, listMean]
    rw [autocorrelation, if_pos (by decide), corrcoef, if_pos (Or.inl hA)]
  · simp [interpretationOf]

/-- C8 (amended): for every report whose autocorrelation is an actual number,
exactly one of the three interpretations is produced, in the claimed priority
order; the NaN case of the counterexample is the only gap. -/
theorem c8_decision_table (b : Bool) (a : ℝ) :
    ((b = true ∧ |a| < 1/10) →
      interpretationOf b (some a) = some Interpretation.statisticallyRandom) ∧
    (b = false →
      interpretationOf b (some a) = some Interpretation.deviationFromRandomness) ∧
    ((b = true ∧ 1/10 ≤ |a|) →
      interpretationOf b (some a) = some Interpretation.serialCorrelation) ∧
    (interpretationOf b (some a)).isSome = true := by
  cases b with
  | false =>
    have h2 : ¬(false = true ∧ |a| < 1/10) := by simp
    have h3 : ¬(false = true) := by simp
    refine ⟨fun hc => absurd hc.1 (by simp), fun _ => ?_,
      fun hc => absurd hc.1 (by simp), ?_⟩
    · simp only [interpretationOf]
      rw [if_neg h2, if_pos h3]
    · simp only [interpretationOf]
      rw [if_neg h2, if_pos h3]
      rfl
  | true =>
    rcases lt_or_le |a| (1/10) with h | h
    · have h1 : True ∧ |a| < 1/10 := ⟨trivial, h⟩
      refine ⟨fun _ => ?_, fun hf => absurd hf (by simp),
        fun hc => absurd hc.2 (not_le.2 h), ?_⟩
      · simp only [interpretationOf]
        rw [if_pos h1]
      · simp only [interpretationOf]
        rw [if_pos h1]
        rfl
    · have h1 : ¬(True ∧ |a| < 1/10) := by
        rintro ⟨-, hlt⟩
        exact absurd hlt (not_lt.2 h)
      have h2 : ¬¬True := by simp
      refine ⟨fun hc => absurd hc.2 (not_lt.2 h), fun hf => absurd hf (by simp),
        fun _ => ?_, ?_⟩
      · simp only [interpretationOf]
        rw [if_neg h1, if_neg h2, if_pos h]
      · simp only [interpretationOf]
        rw [if_neg h1, if_neg h2, if_pos h]
        rfl

/-- Witness for C8 (amended): the first branch at verdict random and
autocorrelation 0. -/
theorem c8_decision_table_witness :
    interpretationOf true (some 0) = some Interpretation.statisticallyRandom :=
  (c8_decision_table true 0).1 ⟨rfl, by norm_num⟩

theorem entropyValue_eq_binEntropy (p0 p1 : ℝ) (h0 : 0 < p0) (h1 : 0 < p1)
    (hs : p0 + p1 = 1) :
    entropyValue p0 p1 = Real.binEntropy p0 / Real.log 2 := by
  have hp1 : p1 = 1 - p0 := by linarith
  rw [entropyValue, if_pos ⟨h0, h1⟩, Real.binEntropy, hp1]
  rw [Real.log_inv, Real.log_inv, Real.logb, Real.logb]
  have hl2 : Real.log 2 ≠ 0 := (Real.log_pos (by norm_num)).ne'
  field_simp
  ring

theorem entropyValue_nonneg (p0 p1 : ℝ) (h0 : 0 ≤ p0) (_h1 : 0 ≤ p1)
    (hs : p0 + p1 = 1) : 0 ≤ entropyValue p0 p1 := by
  by_cases hc : 0 < p0 ∧ 0 < p1
  · rw [entropyValue_eq_binEntropy p0 p1 hc.1 hc.2 hs]
    exact div_nonneg (Real.binEntropy_nonneg h0 (by linarith))
      (Real.log_pos (by norm_num)).le
  · rw [entropyValue, if_neg hc]

theorem entropyValue_le_one (p0 p1 : ℝ) (_h0 : 0 ≤ p0) (_h1 : 0 ≤ p1)
    (hs : p0 + p1 = 1) : entropyValue p0 p1 ≤ 1 := by
  by_cases hc : 0 < p0 ∧ 0 < p1
  · rw [entropyValue_eq_binEntropy p0 p1 hc.1 hc.2 hs]
    rw [div_le_one (Real.log_pos (by norm_num))]
    exact Real.binEntropy_le_log_two
  · rw [entropyValue, if_neg hc]
    norm_num

theorem entropyValue_eq_spec (p0 p1 : ℝ) (h0 : 0 ≤ p0) (h1 : 0 ≤ p1)
    (hs : p0 + p1 = 1) : entropyValue p0 p1 = entropySpecSum p0 p1 := by
  rcases eq_or_lt_of_le h0 with hz0 | hp0
  · have hp1 : p1 = 1 := by linarith
    subst hp1
    rw [← hz0, entropyValue, entropySpecSum]
    norm_num
  · rcases eq_or_lt_of_le h1 with hz1 | hp1
    · have hp0 : p0 = 1 := by linarith
      subst hp0
      rw [← hz1, entropyValue, entropySpecSum]
      norm_num
    · rw [entropyValue, entropySpecSum, if_pos ⟨hp0, hp1⟩, if_pos hp0, if_pos hp1]
      ring

/-- C6: for every non-empty sequence over {0, 1}, the Shannon entropy of the
report equals the spec's sum over positive-probability symbols (a symbol with
zero probability contributes 0, not NaN), and the entropy ratio lies between
0 and 1 inclusive. -/
theorem c6_entropy (sf : ℕ → ℚ → ℚ) (xs : List ℤ) (h : xs ≠ [])
    (hb : ∀ z ∈ xs, z = 0 ∨ z = 1) :
    ∃ r : Analysis, analyze_coin_tosses sf xs = Except.ok r ∧
      entropyValue (r.p0 : ℝ) (r.p1 : ℝ) = entropySpecSum (r.p0 : ℝ) (r.p1 : ℝ) ∧
      0 ≤ entropyRatioToMax (r.p0 : ℝ) (r.p1 : ℝ) ∧
      entropyRatioToMax (r.p0 : ℝ) (r.p1 : ℝ) ≤ 1 := by
  have hlen : (xs.length : ℚ) ≠ 0 := Nat.cast_ne_zero.2 (List.length_pos.2 h).ne'
  have h0 : (0 : ℝ) ≤ ((reportOf sf xs).p0 : ℝ) := by
    rw [reportOf_p0]
    push_cast
    positivity
  have h1 : (0 : ℝ) ≤ ((reportOf sf xs).p1 : ℝ) := by
    rw [reportOf_p1]
    push_cast
    positivity
  have hsq : (reportOf sf xs).p0 + (reportOf sf xs).p1 = 1 := by
    rw [reportOf_p0, reportOf_p1, div_add_div_same, ← Nat.cast_add,
      count01_eq xs hb, div_self hlen]
  have hs : ((reportOf sf xs).p0 : ℝ) + ((reportOf sf xs).p1 : ℝ) = 1 := by
    rw [← Rat.cast_add, hsq]
    norm_num
  refine ⟨reportOf sf xs, by simp [analyze_coin_tosses, h],
    entropyValue_eq_spec _ _ h0 h1 hs, ?_, ?_⟩
  · rw [entropyRatioToMax, div_one]
    exact entropyValue_nonneg _ _ h0 h1 hs
  · rw [entropyRatioToMax, div_one]
    exact entropyValue_le_one _ _ h0 h1 hs

/-- Witness for C6 at the concrete input `[0, 1]`. -/
theorem c6_entropy_witness :
    (([0, 1] : List ℤ) ≠ []) ∧ (∀ z ∈ ([0, 1] : List ℤ), z = 0 ∨ z = 1) ∧
    ∃ r : Analysis, analyze_coin_tosses sfZero [0, 1] = Except.ok r ∧
      entropyValue (r.p0 : ℝ) (r.p1 : ℝ) = entropySpecSum (r.p0 : ℝ) (r.p1 : ℝ) ∧
      0 ≤ entropyRatioToMax (r.p0 : ℝ) (r.p1 : ℝ) ∧
      entropyRatioToMax (r.p0 : ℝ) (r.p1 : ℝ) ≤ 1 :=
  ⟨by decide, by decide, c6_entropy sfZero [0, 1] (by decide) (by decide)⟩

end QuantumStats
